import Mathlib

/-!
Verification of the ralphy task-execution orchestrator
(`src/cli/src/execution/model-fallback.ts`: the `ModelFallbackManager`
state machine and the `runSequential` loop) against its natural-language
specification.

Shallow embedding conventions:
* machine time (`Date.now()`) is passed explicitly as an `Int` argument;
* JavaScript strings are Lean `String`s; regex `test` calls over the
  fixed pattern sets are embedded as executable substring searches;
* the external collaborators (AIEngine invocation wrapped in `withRetry`,
  TaskSource storage, deferred-retry persistence, git branch operations)
  are modelled per the spec's external-interface contracts, with the
  per-iteration engine outcome supplied by an oracle;
* observable side effects of the sequential loop are recorded in an
  event trace.
-/

namespace Ralphy

/-! ## String matching machinery (embeds the JS regex `test` calls) -/

/-- ASCII lower-casing of one character (embeds the effect of the `i`
regex flag on the ASCII pattern sets used by the code). -/
def lowerChar (c : Char) : Char :=
  if 'A' ≤ c ∧ c ≤ 'Z' then Char.ofNat (c.toNat + 32) else c

/-- Lower-case a character list. -/
def lowerStr (s : List Char) : List Char := s.map lowerChar

/-- Does `p` occur at the head of `s`? -/
def startsWithP : List Char → List Char → Bool
  | _, [] => true
  | [], _ :: _ => false
  | c :: s, p :: ps => c == p && startsWithP s ps

/-- Does `p` occur as a contiguous substring of `s`?  Embeds
`/pat/.test(s)` for a literal pattern `pat`. -/
def hasSubstr : List Char → List Char → Bool
  | [], p => p.isEmpty
  | s@(_ :: rest), p => startsWithP s p || hasSubstr rest p

/-- Does `p2` occur in `s` with no newline before its occurrence?
Embeds the `.*p2` part of a regex (JS `.` does not match `\n`). -/
def noNlThen (p2 : List Char) : List Char → Bool
  | [] => p2.isEmpty
  | s@(c :: rest) => startsWithP s p2 || (c != '\n' && noNlThen p2 rest)

/-- Case-insensitive substring test: embeds `/pat/i.test(s)` for a
lower-case literal pattern `pat`. -/
def rlMatchCI (s : String) (p : String) : Bool :=
  hasSubstr (lowerStr s.data) p.data

/-- Case-sensitive substring test: embeds `/pat/.test(s)`. -/
def rlMatchCS (s : String) (p : String) : Bool :=
  hasSubstr s.data p.data

/-- Embeds `/api_error.*overloaded/i.test(s)` on an already lower-cased
character list: an occurrence of `api_error` followed, with no
intervening newline, by an occurrence of `overloaded`. -/
def apiThenOverloaded : List Char → Bool
  | [] => false
  | s@(_ :: rest) =>
      (startsWithP s "api_error".data
        && noNlThen "overloaded".data (s.drop "api_error".length))
      || apiThenOverloaded rest

/-! ## ModelFallbackManager (embedded from the source class) -/

/-- Model configuration (`ModelConfig` in the source). -/
structure ModelConfig where
  primary : String
  fallback : String
  retryInterval : Int
deriving DecidableEq, Repr

/-- Mutable state of the manager (`FallbackState` in the source). -/
structure FallbackState where
  inFallback : Bool
  fallbackStartTime : Option Int
  lastRateLimitTime : Option Int
  rateLimitCount : Nat
deriving DecidableEq, Repr

/-- The initial state of a freshly constructed `ModelFallbackManager`. -/
def initialFallbackState : FallbackState :=
  { inFallback := false, fallbackStartTime := none,
    lastRateLimitTime := none, rateLimitCount := 0 }

/-- Embeds the private `resetTorimary` method (the source's own
spelling): leave fallback mode, clear the start stamp and the
consecutive-error counter. -/
def resetTorimary (s : FallbackState) : FallbackState :=
  { s with inFallback := false, fallbackStartTime := none, rateLimitCount := 0 }

/-- Embeds `getCurrentModel()`.  `now` is the value of `Date.now()` at
the call.  The source's `if (this.state.fallbackStartTime)` is a JS
truthiness test, skipped both for `null` and for the number `0`. -/
def getCurrentModel (cfg : ModelConfig) (s : FallbackState) (now : Int) :
    String × FallbackState :=
  if !s.inFallback then (cfg.primary, s)
  else
    match s.fallbackStartTime with
    | some t =>
      if t != 0 then
        if now - t ≥ cfg.retryInterval then (cfg.primary, resetTorimary s)
        else (cfg.fallback, s)
      else (cfg.fallback, s)
    | none => (cfg.fallback, s)

/-- Embeds `isRateLimitError(error)`: the source's nine-pattern regex
list (eight from the spec plus `/api_error.*overloaded/i`). -/
def isRateLimitError (e : String) : Bool :=
  rlMatchCI e "rate limit" || rlMatchCI e "too many requests" ||
  rlMatchCS e "429" || rlMatchCI e "quota exceeded" ||
  rlMatchCI e "overloaded" || rlMatchCI e "capacity" ||
  rlMatchCI e "temporarily unavailable" || rlMatchCI e "resource exhausted" ||
  apiThenOverloaded (lowerStr e.data)

/-- Modelled from the spec: the eight-pattern rate-limit classifier of
section 4.2 ("rate limit", "too many requests", "429", "quota exceeded",
"overloaded", "capacity", "temporarily unavailable", "resource
exhausted"), for refinement comparison against `isRateLimitError`. -/
def specRateLimitError (e : String) : Bool :=
  rlMatchCI e "rate limit" || rlMatchCI e "too many requests" ||
  rlMatchCS e "429" || rlMatchCI e "quota exceeded" ||
  rlMatchCI e "overloaded" || rlMatchCI e "capacity" ||
  rlMatchCI e "temporarily unavailable" || rlMatchCI e "resource exhausted"

/-- Return value of `handleError`. -/
structure HandleErrorResult where
  shouldRetry : Bool
  newModel : Option String
deriving DecidableEq, Repr

/-- Embeds `handleError(error)`.  Note that the consecutive-error
counter and `lastRateLimitTime` are updated before the `inFallback`
test, so they change even when the manager is already in fallback. -/
def handleError (cfg : ModelConfig) (s : FallbackState) (now : Int)
    (error : String) : HandleErrorResult × FallbackState :=
  if !isRateLimitError error then ({ shouldRetry := false, newModel := none }, s)
  else
    let s1 := { s with rateLimitCount := s.rateLimitCount + 1,
                       lastRateLimitTime := some now }
    if !s.inFallback then
      ({ shouldRetry := true, newModel := some cfg.fallback },
       { s1 with inFallback := true, fallbackStartTime := some now })
    else
      ({ shouldRetry := false, newModel := none }, s1)

/-- Embeds `recordSuccess(model)`. -/
def recordSuccess (cfg : ModelConfig) (s : FallbackState) (model : String) :
    FallbackState :=
  let s1 := if model == cfg.primary && s.inFallback then resetTorimary s else s
  { s1 with rateLimitCount := 0 }

/-- Feeding a list of `(now, errorText)` events through `handleError`,
returning the final state and the number of calls that signalled a
retry (each such call is exactly a `Primary → Fallback` transition). -/
def handleSeq (cfg : ModelConfig) (s : FallbackState) :
    List (Int × String) → FallbackState × Nat
  | [] => (s, 0)
  | (now, e) :: rest =>
    let r := handleError cfg s now e
    let k := handleSeq cfg r.2 rest
    (k.1, (if r.1.shouldRetry then 1 else 0) + k.2)

/-- States of the manager reachable from the initial state through the
public operations, with arbitrary clock readings and inputs. -/
inductive ReachableFB (cfg : ModelConfig) : FallbackState → Prop where
  | init : ReachableFB cfg initialFallbackState
  | getModel (s : FallbackState) (now : Int) :
      ReachableFB cfg s → ReachableFB cfg (getCurrentModel cfg s now).2
  | handle (s : FallbackState) (now : Int) (e : String) :
      ReachableFB cfg s → ReachableFB cfg (handleError cfg s now e).2
  | success (s : FallbackState) (m : String) :
      ReachableFB cfg s → ReachableFB cfg (recordSuccess cfg s m)

/-! ## Sequential executor (embedded from `runSequential`)

The per-task engine invocation (the `withRetry` block together with the
engine call and its in-attempt fallback handling) is an external,
opaque computation from the loop's point of view; its outcome for each
iteration is supplied by an oracle.  Git branch operations, loggers,
spinners, notifications and the chat side channel mutate nothing the
loop observes and are recorded as trace events or omitted. -/

/-- One unit of backlog work (`Task` in `tasks/types.ts`). -/
structure Task where
  id : String
  title : String
  body : Option String := none
  parallelGroup : Option Nat := none
deriving DecidableEq, Repr

/-- Result of one engine invocation (`AIResult` in `engines/types.ts`). -/
structure AIResult where
  success : Bool
  response : String := ""
  inputTokens : Nat := 0
  outputTokens : Nat := 0
  error : Option String := none
deriving DecidableEq, Repr

/-- Running totals returned by the loop (`ExecutionResult`). -/
structure ExecutionResult where
  tasksCompleted : Nat
  tasksFailed : Nat
  totalInputTokens : Nat
  totalOutputTokens : Nat
deriving DecidableEq, Repr

/-- Modelled from the spec: the TaskSource external interface
(section 6; the markdown/issue-tracker implementations are not part of
this core).  The backlog is a task list plus the set of completed ids;
`getNextTask` returns the first task not yet marked complete. -/
structure SourceState where
  tasks : List Task
  completed : List String
deriving DecidableEq, Repr

/-- Modelled from the spec: `getNextTask() → Task|null`. -/
def getNextTask (s : SourceState) : Option Task :=
  s.tasks.find? (fun t => !(s.completed.contains t.id))

/-- Modelled from the spec: `markComplete(id)`. -/
def markComplete (s : SourceState) (id : String) : SourceState :=
  { s with completed := id :: s.completed }

/-- Modelled from the spec: the persisted per-task deferred-retry
counters (section 3, `DeferredTask record`; `deferred.ts` is not part
of this source tree), keyed here by task id. -/
def deferredCount (d : List (String × Nat)) (id : String) : Nat :=
  match d.find? (fun p => p.1 == id) with
  | some p => p.2
  | none => 0

/-- Modelled from the spec: `recordDeferredTask` increments the
counter for the task and returns the new count together with the
updated store. -/
def recordDeferredTask (d : List (String × Nat)) (id : String) :
    Nat × List (String × Nat) :=
  let n := deferredCount d id + 1
  (n, (id, n) :: d.filter (fun p => !(p.1 == id)))

/-- Modelled from the spec: `clearDeferredTask` removes the task's
counter. -/
def clearDeferredTask (d : List (String × Nat)) (id : String) :
    List (String × Nat) :=
  d.filter (fun p => !(p.1 == id))

/-- Modelled from the spec: the Retryable classification of
`RetryPolicy.classify` (section 4.1: rate limit, 429, quota exceeded,
overloaded, temporarily unavailable, resource exhausted, network
timeout; `retry.ts` is not part of this source tree). -/
def isRetryableError (e : String) : Bool :=
  rlMatchCI e "rate limit" || rlMatchCS e "429" ||
  rlMatchCI e "quota exceeded" || rlMatchCI e "overloaded" ||
  rlMatchCI e "temporarily unavailable" || rlMatchCI e "resource exhausted" ||
  rlMatchCI e "network timeout"

/-- Modelled from the spec: the Fatal classification of
`RetryPolicy.classify` (section 4.1: authentication/credentials
invalid, permission denied, engine binary missing). -/
def isFatalError (e : String) : Bool :=
  rlMatchCI e "authentication" || rlMatchCI e "credentials" ||
  rlMatchCI e "permission denied" || rlMatchCI e "binary missing"

/-- Observable events of one sequential run, in order. -/
inductive Ev where
  | fetched (t : Task)
  | branchCreated (name : String)
  | branchFailed
  | observed (id : String) (r : AIResult)
  | marked (id : String)
  | prCreated (branch : String)
  | returnedToBase
deriving DecidableEq, Repr

/-- Outcome of the whole `withRetry`-wrapped engine invocation for one
task: either it resolved to an `AIResult`, or it threw. -/
inductive InvokeOutcome where
  | ok (r : AIResult)
  | thrown (msg : String)
deriving DecidableEq, Repr

/-- Oracle data for one loop iteration: the branch-creation outcome
(`some name`, or `none` when `createTaskBranch` threw), the engine
invocation outcome, and the result of the optional interactive
follow-up invocation (`none` when the user supplied no input). -/
structure StepOracle where
  branch : Option String := none
  invoke : InvokeOutcome := .ok { success := true }
  user : Option AIResult := none
deriving Repr

/-- The option fields of `ExecutionOptions` the loop branches on.
`isTTY` stands for `process.stdin.isTTY`. -/
structure ExecOptions where
  dryRun : Bool := false
  maxIterations : Nat := 0
  maxRetries : Nat := 3
  branchPerTask : Bool := false
  baseBranch : String := ""
  createPr : Bool := false
  isTTY : Bool := false
deriving Repr

/-- Embeds `isInteractive = process.stdin.isTTY && !dryRun`. -/
def isInteractive (o : ExecOptions) : Bool := o.isTTY && !o.dryRun

/-- Mutable state threaded through the loop. -/
structure LoopState where
  source : SourceState
  result : ExecutionResult
  deferred : List (String × Nat)
  iteration : Nat
  trace : List Ev
deriving Repr

/-- Net effect of one loop iteration: the events it appends and the
new values of the source, totals and deferred store, plus the
`abortDueToRetryableFailure` flag and whether the fatal-error branch
returned from the function. -/
structure IterOut where
  block : List Ev
  source : SourceState
  result : ExecutionResult
  deferred : List (String × Nat)
  abort : Bool
  fatalExit : Bool
deriving Repr

/-- Branch-creation events of one iteration (lines 381-389): attempted
only when `branchPerTask && baseBranch` (JS truthiness: the empty
string is falsy). -/
def branchEvs (opts : ExecOptions) (o : StepOracle) : List Ev :=
  if opts.branchPerTask && opts.baseBranch != "" then
    match o.branch with
    | some b => [.branchCreated b]
    | none => [.branchFailed]
  else []

/-- The `branch` local variable after the creation attempt. -/
def branchVar (opts : ExecOptions) (o : StepOracle) : Option String :=
  if opts.branchPerTask && opts.baseBranch != "" then o.branch else none

/-- Embeds `aiResult.error || "Unknown error"` (line 608): JS `||`
treats a missing and an empty error string alike. -/
def errMsgOf (r : AIResult) : String :=
  match r.error with
  | some e => if e = "" then "Unknown error" else e
  | none => "Unknown error"

/-- The error message the disposition branches see, when the
invocation did not succeed. -/
def invokeError : InvokeOutcome → Option String
  | .ok r => if r.success then none else some (errMsgOf r)
  | .thrown m => some m

/-- Token accumulation from the optional interactive follow-up
invocation (lines 546-606): only a successful user-message result adds
to the totals. -/
def userAdjust (opts : ExecOptions) (o : StepOracle) (res : ExecutionResult) :
    ExecutionResult :=
  if isInteractive opts then
    match o.user with
    | some u =>
      if u.success then
        { res with totalInputTokens := res.totalInputTokens + u.inputTokens,
                   totalOutputTokens := res.totalOutputTokens + u.outputTokens }
      else res
    | none => res
  else res

/-- PR-creation event on the success path (lines 530-543). -/
def prEvs (opts : ExecOptions) (o : StepOracle) : List Ev :=
  match branchVar opts o with
  | some b => if opts.createPr && opts.baseBranch != "" then [.prCreated b] else []
  | none => []

/-- Shared failure disposition (lines 612-648 and the identical catch
version at 655-690): classify the message as retryable, fatal or
unknown and update counters and flags accordingly. -/
def failDispo (opts : ExecOptions) (msg : String) (s : LoopState) (t : Task)
    (evs : List Ev) : IterOut :=
  if isRetryableError msg then
    if (recordDeferredTask s.deferred t.id).1 ≥ opts.maxRetries then
      { block := evs, source := s.source,
        result := { s.result with tasksFailed := s.result.tasksFailed + 1 },
        deferred := clearDeferredTask (recordDeferredTask s.deferred t.id).2 t.id,
        abort := false, fatalExit := false }
    else
      { block := evs, source := s.source,
        result := { s.result with tasksFailed := s.result.tasksFailed + 1 },
        deferred := (recordDeferredTask s.deferred t.id).2,
        abort := true, fatalExit := false }
  else if isFatalError msg then
    { block := evs, source := s.source,
      result := { s.result with tasksFailed := s.result.tasksFailed + 1 },
      deferred := s.deferred, abort := false, fatalExit := true }
  else
    { block := evs, source := s.source,
      result := { s.result with tasksFailed := s.result.tasksFailed + 1 },
      deferred := clearDeferredTask s.deferred t.id,
      abort := true, fatalExit := false }

/-- One iteration of the `while (true)` body after a task has been
fetched (lines 376-692), excluding the trailing return-to-base block. -/
def iterTask (opts : ExecOptions) (o : StepOracle) (s : LoopState) (t : Task) :
    IterOut :=
  let bevs := branchEvs opts o
  if opts.dryRun then
    { block := .fetched t :: bevs, source := s.source, result := s.result,
      deferred := s.deferred, abort := false, fatalExit := false }
  else
    match o.invoke with
    | .ok r =>
      if r.success then
        let res :=
          { s.result with
            tasksCompleted := s.result.tasksCompleted + 1,
            totalInputTokens := s.result.totalInputTokens + r.inputTokens,
            totalOutputTokens := s.result.totalOutputTokens + r.outputTokens }
        { block := .fetched t :: bevs ++ [.observed t.id r, .marked t.id]
                     ++ prEvs opts o,
          source := markComplete s.source t.id,
          result := userAdjust opts o res,
          deferred := clearDeferredTask s.deferred t.id,
          abort := false, fatalExit := false }
      else
        failDispo opts (errMsgOf r) s t (.fetched t :: bevs ++ [.observed t.id r])
    | .thrown msg =>
      failDispo opts msg s t (.fetched t :: bevs)

/-- Appends the guaranteed return-to-base event (lines 694-697: guarded
by `branchPerTask && baseBranch`, reached on every path except the
fatal early return). -/
def withBaseReturn (opts : ExecOptions) (it : IterOut) : IterOut :=
  if opts.branchPerTask && opts.baseBranch != "" then
    { it with block := it.block ++ [.returnedToBase] }
  else it

/-- Folds an iteration's effect into the loop state (the iteration
counter was incremented at line 376). -/
def stepState (s : LoopState) (it : IterOut) : LoopState :=
  { source := it.source, result := it.result, deferred := it.deferred,
    iteration := s.iteration + 1, trace := s.trace ++ it.block }

/-- Embeds the iteration cap check
`maxIterations > 0 && iteration >= maxIterations` (line 360). -/
def capReached (opts : ExecOptions) (s : LoopState) : Bool :=
  decide (0 < opts.maxIterations) && decide (opts.maxIterations ≤ s.iteration)

/-- A finished run returns its `ExecutionResult`; `outOfFuel` marks a
truncated unfolding of the unbounded `while (true)` loop. -/
inductive RunOutcome where
  | finished (s : LoopState)
  | outOfFuel (s : LoopState)
deriving Repr

/-- Loop state carried by either outcome. -/
def stateOf : RunOutcome → LoopState
  | .finished s => s
  | .outOfFuel s => s

/-- Embeds the `while (true)` loop of `runSequential` (lines 355-707).
The oracle is indexed by the pre-increment iteration counter.  A
`fatalExit` returns immediately, skipping the return-to-base block;
`abort` breaks out after it. -/
def runSeq (opts : ExecOptions) (oracle : Nat → StepOracle) :
    Nat → LoopState → RunOutcome
  | 0, s => .outOfFuel s
  | fuel + 1, s =>
    if capReached opts s then .finished s
    else
      match getNextTask s.source with
      | none => .finished s
      | some t =>
        let it := iterTask opts (oracle s.iteration) s t
        if it.fatalExit then .finished (stepState s it)
        else
          let it2 := withBaseReturn opts it
          if it2.abort then .finished (stepState s it2)
          else runSeq opts oracle fuel (stepState s it2)

/-- The loop state a run starts from. -/
def initState (tasks : List Task) : LoopState :=
  { source := { tasks := tasks, completed := [] },
    result := { tasksCompleted := 0, tasksFailed := 0,
                totalInputTokens := 0, totalOutputTokens := 0 },
    deferred := [], iteration := 0, trace := [] }

/-- Ids of the tasks marked complete, in trace order. -/
def markedIds (tr : List Ev) : List String :=
  tr.filterMap (fun e => match e with | .marked id => some id | _ => none)

/-- Every completion mark in the trace immediately follows the
observation of a successful `AIResult` for the same task id. -/
def AdjProp (tr : List Ev) : Prop :=
  ∀ pre id post, tr = pre ++ Ev.marked id :: post →
    ∃ pre2 r, pre = pre2 ++ [Ev.observed id r] ∧ r.success = true

/-- Did the run return (rather than run out of fuel)? -/
def isFinished : RunOutcome → Bool
  | .finished _ => true
  | .outOfFuel _ => false

/-- The observation events preceding a failure disposition: the
resolved-but-unsuccessful branch has logged the `AIResult` (line 500),
the thrown branch has not. -/
def failEvs (o : StepOracle) (t : Task) : List Ev :=
  match o.invoke with
  | .ok r => [.observed t.id r]
  | .thrown _ => []

/-- The completion-marking discipline over a trace with completed-id
set `comp`: marks are pairwise distinct, each immediately follows a
successful observation of the same id, each marked id is recorded
complete, and a dry run marks nothing. -/
def MarkInvT (opts : ExecOptions) (tr : List Ev) (comp : List String) : Prop :=
  (markedIds tr).Nodup ∧ AdjProp tr ∧
  (∀ id ∈ markedIds tr, id ∈ comp) ∧
  (opts.dryRun = true → markedIds tr = [])

/-- A single-task backlog used by the concrete scenarios. -/
def singleTask : Task := { id := "1", title := "task-1" }

/-- Oracle whose engine invocation always succeeds with 100 input and
50 output tokens. -/
def okOracle : Nat → StepOracle := fun _ =>
  { invoke := .ok { success := true, response := "done",
                    inputTokens := 100, outputTokens := 50 } }

/-- Oracle that creates a branch and then throws an authentication
(fatal) error. -/
def fatalBranchOracle : Nat → StepOracle := fun _ =>
  { branch := some "task-b", invoke := .thrown "authentication failed" }

/-- Options requesting a branch per task from base branch `main`. -/
def branchOpts : ExecOptions := { branchPerTask := true, baseBranch := "main" }

/-- Oracle whose engine invocation always throws a rate-limit error. -/
def retryOracle : Nat → StepOracle := fun _ => { invoke := .thrown "rate limit" }

/-! ## Theorems: ModelFallbackManager -/

/-- A match with no newline before it is in particular a match. -/
theorem noNlThen_hasSubstr (p : List Char) :
    ∀ s : List Char, noNlThen p s = true → hasSubstr s p = true := by
  intro s
  induction s with
  | nil => intro h; simp only [noNlThen] at h; simp [hasSubstr, h]
  | cons c rest ih =>
    intro h
    simp only [noNlThen, Bool.or_eq_true, Bool.and_eq_true] at h
    rcases h with h | ⟨_, h⟩
    · simp [hasSubstr, h]
    · simp [hasSubstr, ih h]

/-- A substring of a suffix is a substring of the whole list. -/
theorem hasSubstr_drop (p : List Char) :
    ∀ (n : Nat) (s : List Char), hasSubstr (s.drop n) p = true →
      hasSubstr s p = true := by
  intro n
  induction n with
  | zero => intro s h; simpa using h
  | succ n ih =>
    intro s h
    cases s with
    | nil => simpa using h
    | cons c rest =>
      simp only [List.drop_succ_cons] at h
      simp [hasSubstr, ih rest h]

/-- The ninth pattern of `isRateLimitError` is subsumed by the
`overloaded` pattern. -/
theorem apiThenOverloaded_sub :
    ∀ s : List Char, apiThenOverloaded s = true →
      hasSubstr s "overloaded".data = true := by
  intro s
  induction s with
  | nil => intro h; simp [apiThenOverloaded] at h
  | cons c rest ih =>
    intro h
    simp only [apiThenOverloaded, Bool.or_eq_true, Bool.and_eq_true] at h
    rcases h with ⟨_, h2⟩ | h
    · exact hasSubstr_drop _ _ _ (noNlThen_hasSubstr _ _ h2)
    · simp [hasSubstr, ih h]

/-- C8: `ModelFallbackManager.isRateLimitError` is extensionally equal
to the spec's eight-pattern rate-limit classifier: the extra
`/api_error.*overloaded/i` pattern only matches strings the
`/overloaded/i` pattern already matches. -/
theorem isRateLimitError_eq_spec (e : String) :
    isRateLimitError e = specRateLimitError e := by
  cases h : apiThenOverloaded (lowerStr e.data) with
  | false => simp [isRateLimitError, specRateLimitError, h]
  | true =>
    have h5 : rlMatchCI e "overloaded" = true := apiThenOverloaded_sub _ h
    simp [isRateLimitError, specRateLimitError, h5]

/-- C5: `getCurrentModel` returns the primary id (with the state
untouched) in the Primary state; in the Fallback state, with the start
stamp `t` (a nonzero `Date.now()` reading), it resets to Primary and
returns the primary id when at least `retryInterval` has elapsed, and
otherwise returns the fallback id with the state unchanged. -/
theorem getCurrentModel_correct (cfg : ModelConfig) (s : FallbackState)
    (now : Int) :
    (s.inFallback = false → getCurrentModel cfg s now = (cfg.primary, s)) ∧
    (∀ t : Int, s.inFallback = true → s.fallbackStartTime = some t → t ≠ 0 →
      (cfg.retryInterval ≤ now - t →
        getCurrentModel cfg s now = (cfg.primary, resetTorimary s)) ∧
      (now - t < cfg.retryInterval →
        getCurrentModel cfg s now = (cfg.fallback, s))) := by
  constructor
  · intro h; simp [getCurrentModel, h]
  · intro t hf ht h0
    constructor
    · intro hel
      simp [getCurrentModel, hf, ht, h0, hel]
    · intro hel
      simp [getCurrentModel, hf, ht, h0, not_le.mpr hel]

/-- Witness for `getCurrentModel_correct` at a concrete configuration
and state, in both fallback sub-cases. -/
theorem getCurrentModel_correct_witness :
    getCurrentModel ⟨"p", "f", 10⟩ ⟨true, some 5, none, 2⟩ 20 =
      ("p", resetTorimary ⟨true, some 5, none, 2⟩) ∧
    getCurrentModel ⟨"p", "f", 10⟩ ⟨true, some 5, none, 2⟩ 7 =
      ("f", ⟨true, some 5, none, 2⟩) := by
  exact ⟨((getCurrentModel_correct ⟨"p", "f", 10⟩ ⟨true, some 5, none, 2⟩ 20).2
            5 rfl rfl (by decide)).1 (by decide),
         ((getCurrentModel_correct ⟨"p", "f", 10⟩ ⟨true, some 5, none, 2⟩ 7).2
            5 rfl rfl (by decide)).2 (by decide)⟩

/-- While already in fallback, a rate-limit error changes neither
`inFallback` nor the retry count signal. -/
theorem handleSeq_inFallback (cfg : ModelConfig) :
    ∀ (l : List (Int × String)) (s : FallbackState),
      (∀ p ∈ l, isRateLimitError p.2 = true) → s.inFallback = true →
      (handleSeq cfg s l).1.inFallback = true ∧ (handleSeq cfg s l).2 = 0 := by
  intro l
  induction l with
  | nil => intro s _ hf; exact ⟨hf, rfl⟩
  | cons hd tl ih =>
    intro s hall hf
    have hrl : isRateLimitError hd.2 = true := hall hd (by simp)
    have htl : ∀ p ∈ tl, isRateLimitError p.2 = true :=
      fun p hp => hall p (by simp [hp])
    have hstep : handleError cfg s hd.1 hd.2 =
        ({ shouldRetry := false, newModel := none },
         { s with rateLimitCount := s.rateLimitCount + 1,
                  lastRateLimitTime := some hd.1 }) := by
      simp [handleError, hrl, hf]
    have := ih { s with rateLimitCount := s.rateLimitCount + 1,
                        lastRateLimitTime := some hd.1 } htl hf
    cases hd with
    | mk now e =>
      simp only [handleSeq]
      rw [hstep]
      simpa using this

/-- C6: `handleError` signals an immediate retry with the fallback id
and transitions to Fallback (stamping the transition time) exactly when
the error is a rate-limit signal and the state is Primary; otherwise it
signals no retry and leaves `inFallback` unchanged.  Over a nonempty
sequence of consecutive rate-limit errors starting in Primary, exactly
one call signals the transition. -/
theorem handleError_correct (cfg : ModelConfig) (s : FallbackState)
    (now : Int) (e : String) :
    ((handleError cfg s now e).1.shouldRetry = true ↔
      (isRateLimitError e = true ∧ s.inFallback = false)) ∧
    (isRateLimitError e = true → s.inFallback = false →
      (handleError cfg s now e).1 = ⟨true, some cfg.fallback⟩ ∧
      (handleError cfg s now e).2 =
        { s with inFallback := true, fallbackStartTime := some now,
                 lastRateLimitTime := some now,
                 rateLimitCount := s.rateLimitCount + 1 }) ∧
    (isRateLimitError e = false ∨ s.inFallback = true →
      (handleError cfg s now e).1 = ⟨false, none⟩ ∧
      (handleError cfg s now e).2.inFallback = s.inFallback) ∧
    (∀ l : List (Int × String), l ≠ [] →
      (∀ p ∈ l, isRateLimitError p.2 = true) → s.inFallback = false →
      (handleSeq cfg s l).2 = 1 ∧ (handleSeq cfg s l).1.inFallback = true) := by
  refine ⟨?_, ?_, ?_, ?_⟩
  · cases hrl : isRateLimitError e with
    | false => simp [handleError, hrl]
    | true =>
      cases hf : s.inFallback with
      | false => simp [handleError, hrl, hf]
      | true => simp [handleError, hrl, hf]
  · intro hrl hf
    constructor <;> simp [handleError, hrl, hf]
  · intro h
    rcases h with hrl | hf
    · constructor <;> simp [handleError, hrl]
    · cases hrl : isRateLimitError e with
      | false => constructor <;> simp [handleError, hrl]
      | true => constructor <;> simp [handleError, hrl, hf]
  · intro l hne hall hf
    cases l with
    | nil => exact absurd rfl hne
    | cons hd tl =>
      have hrl : isRateLimitError hd.2 = true := hall hd (by simp)
      have htl : ∀ p ∈ tl, isRateLimitError p.2 = true :=
        fun p hp => hall p (by simp [hp])
      have hstep : handleError cfg s hd.1 hd.2 =
          ({ shouldRetry := true, newModel := some cfg.fallback },
           { s with inFallback := true, fallbackStartTime := some hd.1,
                    lastRateLimitTime := some hd.1,
                    rateLimitCount := s.rateLimitCount + 1 }) := by
        simp [handleError, hrl, hf]
      have htail := handleSeq_inFallback cfg tl
        { s with inFallback := true, fallbackStartTime := some hd.1,
                 lastRateLimitTime := some hd.1,
                 rateLimitCount := s.rateLimitCount + 1 } htl rfl
      cases hd with
      | mk nw er =>
        simp only [handleSeq]
        rw [hstep]
        simp [htail.1, htail.2]

/-- Witness for `handleError_correct`: a first rate-limit error in
Primary transitions; a sequence of three transitions exactly once. -/
theorem handleError_correct_witness :
    (handleError ⟨"p", "f", 10⟩ initialFallbackState 3 "rate limit").1 =
      ⟨true, some "f"⟩ ∧
    (handleSeq ⟨"p", "f", 10⟩ initialFallbackState
      [(1, "rate limit"), (2, "429"), (3, "quota exceeded")]).2 = 1 := by
  refine ⟨((handleError_correct ⟨"p", "f", 10⟩ initialFallbackState 3
      "rate limit").2.1 (by decide) rfl).1, ?_⟩
  exact ((handleError_correct ⟨"p", "f", 10⟩ initialFallbackState 1
      "rate limit").2.2.2
      [(1, "rate limit"), (2, "429"), (3, "quota exceeded")]
      (by decide) (by decide) rfl).1

/-- C7 counterexample: a rate-limit error received while already in
Fallback does mutate the state — the consecutive-error counter is
incremented and `lastRateLimitTime` is stamped — refuting the claim
that the entire `FallbackState` is left unchanged. -/
theorem handleError_fallback_not_frame :
    (handleError ⟨"p", "f", 10⟩ ⟨true, some 1, none, 0⟩ 5 "rate limit").1 =
      ⟨false, none⟩ ∧
    (handleError ⟨"p", "f", 10⟩ ⟨true, some 1, none, 0⟩ 5 "rate limit").2 ≠
      ⟨true, some 1, none, 0⟩ := by
  constructor
  · decide
  · decide

/-- C7 amended: a rate-limit error while already in Fallback returns
no-retry and leaves `inFallback` and `fallbackStartTime` unchanged,
but increments `rateLimitCount` and stamps `lastRateLimitTime` with the
call time. -/
theorem handleError_fallback_frame (cfg : ModelConfig) (s : FallbackState)
    (now : Int) (e : String) (hrl : isRateLimitError e = true)
    (hf : s.inFallback = true) :
    handleError cfg s now e =
      (⟨false, none⟩,
       { s with rateLimitCount := s.rateLimitCount + 1,
                lastRateLimitTime := some now }) := by
  simp [handleError, hrl, hf]

/-- Witness for `handleError_fallback_frame` at a concrete state. -/
theorem handleError_fallback_frame_witness :
    handleError ⟨"p", "f", 10⟩ ⟨true, some 1, some 2, 7⟩ 5 "quota exceeded" =
      (⟨false, none⟩, ⟨true, some 1, some 5, 8⟩) := by
  exact handleError_fallback_frame ⟨"p", "f", 10⟩ ⟨true, some 1, some 2, 7⟩ 5
    "quota exceeded" (by decide) rfl

/-- The semantic invariant of the manager, stated on one state. -/
def FBInv (s : FallbackState) : Prop :=
  s.inFallback = s.fallbackStartTime.isSome

/-- C10: in every reachable manager state, `inFallback` holds exactly
when `fallbackStartTime` is non-null; consequently the final
fallback-return branch of `getCurrentModel` (`inFallback` with a null
`fallbackStartTime`) is unreachable. -/
theorem fallback_invariant (cfg : ModelConfig) (s : FallbackState)
    (h : ReachableFB cfg s) :
    (s.inFallback = true ↔ s.fallbackStartTime ≠ none) ∧
    ¬(s.inFallback = true ∧ s.fallbackStartTime = none) := by
  have key : FBInv s := by
    induction h with
    | init => rfl
    | getModel s' now _ ih =>
      have haux : (getCurrentModel cfg s' now).2 = s' ∨
          (getCurrentModel cfg s' now).2 = resetTorimary s' := by
        unfold getCurrentModel
        cases hf : s'.inFallback with
        | false => simp
        | true =>
          rcases hs : s'.fallbackStartTime with _ | t
          · simp
          · by_cases h0 : t = 0
            · simp [h0]
            · by_cases hel : cfg.retryInterval ≤ now - t <;> simp [h0, hel]
      rcases haux with hh | hh <;> rw [hh]
      · exact ih
      · simp [FBInv, resetTorimary]
    | handle s' now e _ ih =>
      unfold handleError
      cases hrl : isRateLimitError e <;> cases hf : s'.inFallback <;>
        simp_all [FBInv]
    | success s' m _ ih =>
      unfold recordSuccess
      cases hf : s'.inFallback <;>
        cases hm : (m == cfg.primary) <;>
        simp_all [FBInv, resetTorimary]
  constructor
  · rw [FBInv] at key
    constructor
    · intro hf
      rw [hf] at key
      intro hn
      rw [hn] at key
      simp at key
    · intro hn
      rw [key]
      simpa [Option.isSome_iff_ne_none] using hn
  · rintro ⟨hf, hn⟩
    rw [FBInv, hf, hn] at key
    simp at key

/-- Witness for `fallback_invariant`: the invariant instance at the
initial state. -/
theorem fallback_invariant_witness :
    ¬(initialFallbackState.inFallback = true ∧
      initialFallbackState.fallbackStartTime = none) :=
  (fallback_invariant ⟨"p", "f", 10⟩ initialFallbackState ReachableFB.init).2

/-! ## Theorems: sequential executor -/

theorem markedIds_append (a b : List Ev) :
    markedIds (a ++ b) = markedIds a ++ markedIds b :=
  List.filterMap_append a b _

theorem markedIds_fetched (t : Task) (l : List Ev) :
    markedIds (Ev.fetched t :: l) = markedIds l := rfl

theorem markedIds_marked_cons (id : String) (l : List Ev) :
    markedIds (Ev.marked id :: l) = id :: markedIds l := rfl

theorem markedIds_branchEvs (opts : ExecOptions) (o : StepOracle) :
    markedIds (branchEvs opts o) = [] := by
  unfold branchEvs
  split
  · cases o.branch <;> rfl
  · rfl

theorem markedIds_prEvs (opts : ExecOptions) (o : StepOracle) :
    markedIds (prEvs opts o) = [] := by
  rcases hb : branchVar opts o with _ | b
  · simp [prEvs, hb, markedIds]
  · by_cases hc : (opts.createPr && opts.baseBranch != "") = true
    · simp [prEvs, hb, hc, markedIds]
    · simp [prEvs, hb, hc, markedIds]

theorem markedIds_failEvs (o : StepOracle) (t : Task) :
    markedIds (failEvs o t) = [] := by
  unfold failEvs
  cases o.invoke <;> rfl

/-- `failDispo` only annotates the events it is given. -/
theorem failDispo_block (opts : ExecOptions) (msg : String) (s : LoopState)
    (t : Task) (evs : List Ev) : (failDispo opts msg s t evs).block = evs := by
  unfold failDispo
  split
  · split <;> rfl
  · split <;> rfl

/-- `failDispo` never marks the task complete. -/
theorem failDispo_source (opts : ExecOptions) (msg : String) (s : LoopState)
    (t : Task) (evs : List Ev) : (failDispo opts msg s t evs).source = s.source := by
  unfold failDispo
  split
  · split <;> rfl
  · split <;> rfl

/-- Every failure branch counts the task failed exactly once. -/
theorem failDispo_failed (opts : ExecOptions) (msg : String) (s : LoopState)
    (t : Task) (evs : List Ev) :
    (failDispo opts msg s t evs).result =
      { s.result with tasksFailed := s.result.tasksFailed + 1 } := by
  unfold failDispo
  split
  · split <;> rfl
  · split <;> rfl

/-- The fatal branch of the disposition (lines 627-636 / 670-678). -/
theorem failDispo_fatal (opts : ExecOptions) (msg : String) (s : LoopState)
    (t : Task) (evs : List Ev) (hret : isRetryableError msg = false)
    (hfat : isFatalError msg = true) :
    failDispo opts msg s t evs =
      { block := evs, source := s.source,
        result := { s.result with tasksFailed := s.result.tasksFailed + 1 },
        deferred := s.deferred, abort := false, fatalExit := true } := by
  simp [failDispo, hret, hfat]

/-- A failed invocation (either an unsuccessful `AIResult` or a thrown
error) reaches the shared disposition with the corresponding message. -/
theorem iterTask_failure (opts : ExecOptions) (o : StepOracle) (s : LoopState)
    (t : Task) (msg : String) (hdry : opts.dryRun = false)
    (hmsg : invokeError o.invoke = some msg) :
    iterTask opts o s t =
      failDispo opts msg s t
        (Ev.fetched t :: branchEvs opts o ++ failEvs o t) := by
  cases hi : o.invoke with
  | ok r =>
    simp only [hi, invokeError] at hmsg
    cases hs : r.success with
    | true => rw [hs] at hmsg; simp at hmsg
    | false =>
      rw [hs] at hmsg
      simp only [Bool.false_eq_true, if_false, Option.some.injEq] at hmsg
      simp [iterTask, hdry, hi, hs, failEvs, hmsg]
  | thrown m =>
    simp only [hi, invokeError, Option.some.injEq] at hmsg
    simp [iterTask, hdry, hi, failEvs, hmsg]

/-- Block, source, result and flag shape of a successful iteration. -/
theorem iterTask_success (opts : ExecOptions) (o : StepOracle) (s : LoopState)
    (t : Task) (r : AIResult) (hdry : opts.dryRun = false)
    (hi : o.invoke = .ok r) (hs : r.success = true) :
    iterTask opts o s t =
      { block := (Ev.fetched t :: branchEvs opts o) ++
                   ([Ev.observed t.id r, Ev.marked t.id] ++ prEvs opts o),
        source := markComplete s.source t.id,
        result := userAdjust opts o
          { s.result with
            tasksCompleted := s.result.tasksCompleted + 1,
            totalInputTokens := s.result.totalInputTokens + r.inputTokens,
            totalOutputTokens := s.result.totalOutputTokens + r.outputTokens },
        deferred := clearDeferredTask s.deferred t.id,
        abort := false, fatalExit := false } := by
  simp [iterTask, hdry, hi, hs]

/-- Either an iteration succeeded — marking exactly its own task right
after the successful observation — or it marked nothing and left the
task source untouched. -/
theorem iterTask_disc (opts : ExecOptions) (o : StepOracle) (s : LoopState)
    (t : Task) :
    (∃ r : AIResult, o.invoke = .ok r ∧ r.success = true ∧
      opts.dryRun = false ∧
      (iterTask opts o s t).block =
        (Ev.fetched t :: branchEvs opts o) ++
          ([Ev.observed t.id r, Ev.marked t.id] ++ prEvs opts o) ∧
      (iterTask opts o s t).source = markComplete s.source t.id) ∨
    ((iterTask opts o s t).source = s.source ∧
      markedIds (iterTask opts o s t).block = []) := by
  cases hd : opts.dryRun with
  | true =>
    right
    refine ⟨?_, ?_⟩
    · unfold iterTask; rw [hd]; simp
    · have hb : (iterTask opts o s t).block = Ev.fetched t :: branchEvs opts o := by
        unfold iterTask; rw [hd]; simp
      rw [hb, markedIds_fetched, markedIds_branchEvs]
  | false =>
    cases hi : o.invoke with
    | ok r =>
      cases hs : r.success with
      | true =>
        left
        refine ⟨r, rfl, hs, rfl, ?_, ?_⟩
        · rw [iterTask_success opts o s t r hd hi hs]
        · rw [iterTask_success opts o s t r hd hi hs]
      | false =>
        right
        have hmsg : invokeError o.invoke = some (errMsgOf r) := by
          simp only [hi, invokeError, hs, Bool.false_eq_true, if_false]
        rw [iterTask_failure opts o s t (errMsgOf r) hd hmsg]
        refine ⟨failDispo_source _ _ _ _ _, ?_⟩
        rw [failDispo_block, markedIds_append, markedIds_fetched,
            markedIds_branchEvs, markedIds_failEvs]
        rfl
    | thrown m =>
      right
      have hmsg : invokeError o.invoke = some m := by
        simp only [hi, invokeError]
      rw [iterTask_failure opts o s t m hd hmsg]
      refine ⟨failDispo_source _ _ _ _ _, ?_⟩
      rw [failDispo_block, markedIds_append, markedIds_fetched,
          markedIds_branchEvs, markedIds_failEvs]
      rfl

/-- A trace without marks trivially satisfies the adjacency property. -/
theorem adjProp_of_noMarks (l : List Ev) (h : markedIds l = []) : AdjProp l := by
  intro pre id post hl
  exfalso
  have hm : id ∈ markedIds l := by
    rw [hl, markedIds_append, markedIds_marked_cons]
    exact List.mem_append_right _ (List.mem_cons_self _ _)
  rw [h] at hm
  exact List.not_mem_nil id hm

/-- The adjacency property is closed under concatenation. -/
theorem adjProp_append (a b : List Ev) (ha : AdjProp a) (hb : AdjProp b) :
    AdjProp (a ++ b) := by
  intro pre id post h
  rcases List.append_eq_append_iff.mp h with ⟨a', hc, hd⟩ | ⟨c', hA, hd⟩
  · obtain ⟨pre2, r, hpre2, hsucc⟩ := hb a' id post hd
    exact ⟨a ++ pre2, r, by rw [hc, hpre2, List.append_assoc], hsucc⟩
  · cases c' with
    | nil =>
      obtain ⟨pre2, r, hpre2, _⟩ := hb [] id post (by simpa using hd.symm)
      cases pre2 <;> simp at hpre2
    | cons e c'' =>
      simp only [List.cons_append, List.cons.injEq] at hd
      obtain ⟨he, hpost⟩ := hd
      obtain ⟨pre2, r, hpre2, hsucc⟩ := ha pre id c'' (by rw [hA, ← he])
      exact ⟨pre2, r, hpre2, hsucc⟩

/-- The success-path event pair satisfies the adjacency property. -/
theorem adjProp_pair (id : String) (r : AIResult) (h : r.success = true) :
    AdjProp [Ev.observed id r, Ev.marked id] := by
  intro pre id' post hl
  cases pre with
  | nil => simp at hl
  | cons x xs =>
    cases xs with
    | nil =>
      simp only [List.cons_append, List.nil_append, List.cons.injEq] at hl
      obtain ⟨hx, hmk, -⟩ := hl
      obtain rfl : id = id' := by
        cases hmk; rfl
      exact ⟨[], r, by simp [← hx], h⟩
    | cons y ys => simp at hl

/-- The task handed out by `getNextTask` is not yet completed. -/
theorem getNextTask_not_completed (s : SourceState) (t : Task)
    (h : getNextTask s = some t) : t.id ∉ s.completed := by
  have hp := List.find?_some (show List.find? _ s.tasks = some t from h)
  simp only [Bool.not_eq_true'] at hp
  intro hmem
  simp [hmem] at hp

/-- One iteration (with any mark-free, adjacency-respecting tail of
cleanup events appended to its block) preserves the completion-marking
discipline. -/
theorem markInvT_iter (opts : ExecOptions) (o : StepOracle) (s : LoopState)
    (t : Task) (tl : List Ev)
    (hfetch : getNextTask s.source = some t)
    (hinv : MarkInvT opts s.trace s.source.completed)
    (htl1 : markedIds tl = []) (htl2 : AdjProp tl) :
    MarkInvT opts (s.trace ++ ((iterTask opts o s t).block ++ tl))
      (iterTask opts o s t).source.completed := by
  obtain ⟨hnd, hadj, hsub, hdryI⟩ := hinv
  have hnot : t.id ∉ s.source.completed := getNextTask_not_completed _ _ hfetch
  rcases iterTask_disc opts o s t with
    ⟨r, hok, hsucc, hdry, hblock, hsource⟩ | ⟨hsource, hblock⟩
  · have hmblock : markedIds (iterTask opts o s t).block = [t.id] := by
      rw [hblock, markedIds_append, markedIds_fetched, markedIds_branchEvs,
          markedIds_append, markedIds_prEvs]
      rfl
    have hnotm : t.id ∉ markedIds s.trace := fun hm => hnot (hsub _ hm)
    refine ⟨?_, ?_, ?_, ?_⟩
    · rw [markedIds_append, markedIds_append, hmblock, htl1]
      simp only [List.append_nil]
      rw [List.nodup_append]
      exact ⟨hnd, List.nodup_singleton _, by
        intro a hma hmb
        rw [List.mem_singleton] at hmb
        rw [hmb] at hma
        exact hnotm hma⟩
    · refine adjProp_append _ _ hadj ?_
      rw [hblock]
      exact adjProp_append _ _
        (adjProp_append _ _
          (adjProp_of_noMarks _ (by rw [markedIds_fetched, markedIds_branchEvs]))
          (adjProp_append _ _ (adjProp_pair t.id r hsucc)
            (adjProp_of_noMarks _ (markedIds_prEvs opts o))))
        htl2
    · intro id hm
      rw [markedIds_append, markedIds_append, hmblock, htl1] at hm
      rw [hsource]
      simp only [markComplete, List.append_nil, List.mem_append,
                 List.mem_singleton] at hm ⊢
      rcases hm with hmold | rfl
      · exact List.mem_cons_of_mem _ (hsub _ hmold)
      · exact List.mem_cons_self _ _
    · intro hdd
      rw [hdd] at hdry
      cases hdry
  · refine ⟨?_, ?_, ?_, ?_⟩
    · rw [markedIds_append, markedIds_append, hblock, htl1]
      simpa using hnd
    · exact adjProp_append _ _ hadj
        (adjProp_append _ _ (adjProp_of_noMarks _ hblock)
          (adjProp_of_noMarks _ htl1))
    · intro id hm
      rw [markedIds_append, markedIds_append, hblock, htl1] at hm
      simp only [List.append_nil] at hm
      rw [hsource]
      exact hsub _ hm
    · intro hdd
      rw [markedIds_append, markedIds_append, hblock, htl1]
      simpa using hdryI hdd

/-- The cleanup appendix of `withBaseReturn`: a mark-free tail that
leaves source and abort flag unchanged. -/
theorem withBaseReturn_spec (opts : ExecOptions) (it : IterOut) :
    ∃ tl : List Ev, (withBaseReturn opts it).block = it.block ++ tl ∧
      markedIds tl = [] ∧ AdjProp tl ∧
      (withBaseReturn opts it).source = it.source := by
  unfold withBaseReturn
  split
  · exact ⟨[Ev.returnedToBase], rfl, rfl, adjProp_of_noMarks _ rfl, rfl⟩
  · exact ⟨[], by simp, rfl, adjProp_of_noMarks _ rfl, rfl⟩

/-- The completion-marking discipline is an invariant of the loop. -/
theorem runSeq_markInvT (opts : ExecOptions) (oracle : Nat → StepOracle) :
    ∀ (fuel : Nat) (s : LoopState),
      MarkInvT opts s.trace s.source.completed →
      MarkInvT opts (stateOf (runSeq opts oracle fuel s)).trace
        (stateOf (runSeq opts oracle fuel s)).source.completed := by
  intro fuel
  induction fuel with
  | zero => intro s h; exact h
  | succ n ih =>
    intro s h
    rw [runSeq]
    by_cases hcap : capReached opts s = true
    · simp only [hcap, if_true]
      exact h
    · simp only [Bool.not_eq_true] at hcap
      simp only [hcap, Bool.false_eq_true, if_false]
      cases hfetch : getNextTask s.source with
      | none => exact h
      | some t =>
        obtain ⟨tl, htlblock, htl1, htl2, htlsrc⟩ :=
          withBaseReturn_spec opts (iterTask opts (oracle s.iteration) s t)
        have hkey0 := markInvT_iter opts (oracle s.iteration) s t []
          hfetch h rfl (adjProp_of_noMarks _ rfl)
        have hkey1 := markInvT_iter opts (oracle s.iteration) s t tl
          hfetch h htl1 htl2
        by_cases hfat : (iterTask opts (oracle s.iteration) s t).fatalExit = true
        · simp only [hfat, if_true]
          simp only [stateOf, stepState]
          simpa using hkey0
        · simp only [Bool.not_eq_true] at hfat
          simp only [hfat, Bool.false_eq_true, if_false]
          by_cases hab :
              (withBaseReturn opts (iterTask opts (oracle s.iteration) s t)).abort = true
          · simp only [hab, if_true]
            simp only [stateOf, stepState]
            rw [htlblock, htlsrc]
            exact hkey1
          · simp only [Bool.not_eq_true] at hab
            simp only [hab, Bool.false_eq_true, if_false]
            apply ih
            simp only [stepState]
            rw [htlblock, htlsrc]
            exact hkey1

/-- C1: over any run of the sequential loop, each task is marked
complete at most once, a mark happens only immediately after an
`AIResult` with `success = true` was observed for that task, and a dry
run never marks anything — so no failure branch ever marks its task. -/
theorem runSeq_mark_discipline (opts : ExecOptions) (oracle : Nat → StepOracle)
    (fuel : Nat) (tasks : List Task) :
    (markedIds (stateOf (runSeq opts oracle fuel (initState tasks))).trace).Nodup ∧
    AdjProp (stateOf (runSeq opts oracle fuel (initState tasks))).trace ∧
    (opts.dryRun = true →
      markedIds (stateOf (runSeq opts oracle fuel (initState tasks))).trace = []) := by
  have h0 : MarkInvT opts (initState tasks).trace
      (initState tasks).source.completed := by
    refine ⟨List.nodup_nil, adjProp_of_noMarks _ rfl, ?_, fun _ => rfl⟩
    intro id hm
    simp [initState, markedIds] at hm
  have h := runSeq_markInvT opts oracle fuel (initState tasks) h0
  exact ⟨h.1, h.2.1, h.2.2.2⟩

/-- Witness for `runSeq_mark_discipline`: a concrete dry run marks no
task complete. -/
theorem runSeq_mark_discipline_witness :
    markedIds (stateOf (runSeq { dryRun := true } okOracle 3
      (initState [singleTask]))).trace = [] :=
  (runSeq_mark_discipline { dryRun := true } okOracle 3 [singleTask]).2.2 rfl

theorem withBaseReturn_abort (opts : ExecOptions) (it : IterOut) :
    (withBaseReturn opts it).abort = it.abort := by
  unfold withBaseReturn
  split <;> rfl

/-- One unfolding of the loop after a task has been fetched. -/
theorem runSeq_step (opts : ExecOptions) (oracle : Nat → StepOracle)
    (fuel : Nat) (s : LoopState) (t : Task)
    (hcap : capReached opts s = false)
    (hfetch : getNextTask s.source = some t) :
    runSeq opts oracle (fuel + 1) s =
      (if (iterTask opts (oracle s.iteration) s t).fatalExit then
        RunOutcome.finished (stepState s (iterTask opts (oracle s.iteration) s t))
      else if (withBaseReturn opts (iterTask opts (oracle s.iteration) s t)).abort then
        RunOutcome.finished
          (stepState s (withBaseReturn opts (iterTask opts (oracle s.iteration) s t)))
      else
        runSeq opts oracle fuel
          (stepState s (withBaseReturn opts (iterTask opts (oracle s.iteration) s t)))) := by
  rw [runSeq]
  simp only [hcap, Bool.false_eq_true, if_false, hfetch]

/-- C3: a fatal (authentication/configuration) classification aborts
the run at once: the loop returns its `ExecutionResult` with
`tasksFailed` incremented exactly once for the current task, the task
source untouched (the task stays unmarked), no completion event in the
iteration's block, and no further task fetched no matter how many
remain. -/
theorem runSeq_fatal_aborts (opts : ExecOptions) (oracle : Nat → StepOracle)
    (fuel : Nat) (s : LoopState) (t : Task) (msg : String)
    (hcap : capReached opts s = false)
    (hfetch : getNextTask s.source = some t)
    (hdry : opts.dryRun = false)
    (hmsg : invokeError (oracle s.iteration).invoke = some msg)
    (hret : isRetryableError msg = false)
    (hfat : isFatalError msg = true) :
    runSeq opts oracle (fuel + 1) s =
      .finished (stepState s (iterTask opts (oracle s.iteration) s t)) ∧
    (iterTask opts (oracle s.iteration) s t).result =
      { s.result with tasksFailed := s.result.tasksFailed + 1 } ∧
    (iterTask opts (oracle s.iteration) s t).source = s.source ∧
    markedIds (iterTask opts (oracle s.iteration) s t).block = [] := by
  have hit := iterTask_failure opts (oracle s.iteration) s t msg hdry hmsg
  have hfd := failDispo_fatal opts msg s t
    (Ev.fetched t :: branchEvs opts (oracle s.iteration) ++
      failEvs (oracle s.iteration) t) hret hfat
  refine ⟨?_, ?_, ?_, ?_⟩
  · rw [runSeq_step opts oracle fuel s t hcap hfetch, hit, hfd]
    simp
  · rw [hit, hfd]
  · rw [hit, hfd]
  · rw [hit, hfd]
    rw [markedIds_append, markedIds_fetched, markedIds_branchEvs,
        markedIds_failEvs]
    rfl

/-- Witness for `runSeq_fatal_aborts`: one fatal task aborts a concrete
run immediately. -/
theorem runSeq_fatal_aborts_witness :
    runSeq {} fatalBranchOracle 5 (initState [singleTask]) =
      .finished (stepState (initState [singleTask])
        (iterTask {} (fatalBranchOracle 0) (initState [singleTask]) singleTask)) :=
  (runSeq_fatal_aborts {} fatalBranchOracle 4 (initState [singleTask]) singleTask
    "authentication failed" (by decide) rfl rfl rfl (by decide) (by decide)).1

theorem deferredCount_clear (d : List (String × Nat)) (id : String) :
    deferredCount (clearDeferredTask d id) id = 0 := by
  induction d with
  | nil => rfl
  | cons hd tl ih =>
    cases hp : (hd.1 == id) with
    | true =>
      unfold clearDeferredTask at ih ⊢
      simp only [List.filter_cons, hp, Bool.not_true, Bool.false_eq_true,
                 if_false]
      exact ih
    | false =>
      unfold clearDeferredTask at ih ⊢
      simp only [List.filter_cons, hp, Bool.not_false, if_true]
      unfold deferredCount at ih ⊢
      rw [List.find?_cons_of_neg _ (by simp [hp])]
      exact ih

theorem deferredCount_record (d : List (String × Nat)) (id : String) :
    deferredCount (recordDeferredTask d id).2 id = deferredCount d id + 1 := by
  unfold recordDeferredTask deferredCount
  rw [List.find?_cons_of_pos _ (by simp)]

/-- C2: a retryable failure increments the task's deferral counter; if
the incremented counter has reached `maxRetries`, the task is counted
failed, its deferral counter is cleared, the source is untouched and
the loop recurses to the next task; if it is still below `maxRetries`,
the run ends right after this iteration (no further fetch), again with
the task counted failed and left unmarked. -/
theorem runSeq_retryable (opts : ExecOptions) (oracle : Nat → StepOracle)
    (fuel : Nat) (s : LoopState) (t : Task) (msg : String)
    (hcap : capReached opts s = false)
    (hfetch : getNextTask s.source = some t)
    (hdry : opts.dryRun = false)
    (hmsg : invokeError (oracle s.iteration).invoke = some msg)
    (hret : isRetryableError msg = true) :
    (opts.maxRetries ≤ deferredCount s.deferred t.id + 1 →
      (iterTask opts (oracle s.iteration) s t).abort = false ∧
      (iterTask opts (oracle s.iteration) s t).fatalExit = false ∧
      (iterTask opts (oracle s.iteration) s t).result.tasksFailed =
        s.result.tasksFailed + 1 ∧
      (iterTask opts (oracle s.iteration) s t).source = s.source ∧
      deferredCount (iterTask opts (oracle s.iteration) s t).deferred t.id = 0 ∧
      runSeq opts oracle (fuel + 1) s =
        runSeq opts oracle fuel
          (stepState s (withBaseReturn opts (iterTask opts (oracle s.iteration) s t)))) ∧
    (deferredCount s.deferred t.id + 1 < opts.maxRetries →
      (iterTask opts (oracle s.iteration) s t).abort = true ∧
      (iterTask opts (oracle s.iteration) s t).fatalExit = false ∧
      (iterTask opts (oracle s.iteration) s t).result.tasksFailed =
        s.result.tasksFailed + 1 ∧
      (iterTask opts (oracle s.iteration) s t).source = s.source ∧
      deferredCount (iterTask opts (oracle s.iteration) s t).deferred t.id =
        deferredCount s.deferred t.id + 1 ∧
      runSeq opts oracle (fuel + 1) s =
        .finished
          (stepState s (withBaseReturn opts (iterTask opts (oracle s.iteration) s t)))) := by
  have hit := iterTask_failure opts (oracle s.iteration) s t msg hdry hmsg
  have hrd : (recordDeferredTask s.deferred t.id).1 =
      deferredCount s.deferred t.id + 1 := rfl
  constructor
  · intro hge
    have hfd : failDispo opts msg s t
        (Ev.fetched t :: branchEvs opts (oracle s.iteration) ++
          failEvs (oracle s.iteration) t) =
        { block := Ev.fetched t :: branchEvs opts (oracle s.iteration) ++
            failEvs (oracle s.iteration) t,
          source := s.source,
          result := { s.result with tasksFailed := s.result.tasksFailed + 1 },
          deferred := clearDeferredTask (recordDeferredTask s.deferred t.id).2 t.id,
          abort := false, fatalExit := false } := by
      simp only [failDispo, hret, if_true, hrd]
      rw [if_pos hge]
    refine ⟨by rw [hit, hfd], by rw [hit, hfd], by rw [hit, hfd],
            by rw [hit, hfd], ?_, ?_⟩
    · rw [hit, hfd]
      exact deferredCount_clear _ _
    · rw [runSeq_step opts oracle fuel s t hcap hfetch]
      rw [hit, hfd]
      rw [if_neg (by simp)]
      rw [if_neg (by rw [withBaseReturn_abort]; simp)]
  · intro hlt
    have hfd : failDispo opts msg s t
        (Ev.fetched t :: branchEvs opts (oracle s.iteration) ++
          failEvs (oracle s.iteration) t) =
        { block := Ev.fetched t :: branchEvs opts (oracle s.iteration) ++
            failEvs (oracle s.iteration) t,
          source := s.source,
          result := { s.result with tasksFailed := s.result.tasksFailed + 1 },
          deferred := (recordDeferredTask s.deferred t.id).2,
          abort := true, fatalExit := false } := by
      simp only [failDispo, hret, if_true, hrd]
      rw [if_neg (not_le.mpr hlt)]
    refine ⟨by rw [hit, hfd], by rw [hit, hfd], by rw [hit, hfd],
            by rw [hit, hfd], ?_, ?_⟩
    · rw [hit, hfd]
      exact deferredCount_record _ _
    · rw [runSeq_step opts oracle fuel s t hcap hfetch]
      rw [hit, hfd]
      rw [if_neg (by simp)]
      rw [if_pos (by rw [withBaseReturn_abort])]

/-- Witness for `runSeq_retryable`: with `maxRetries := 1` a first
rate-limit failure exhausts the deferrals, clears the counter and lets
the loop continue; with `maxRetries := 2` it aborts the run early. -/
theorem runSeq_retryable_witness :
    deferredCount (iterTask { maxRetries := 1 } (retryOracle 0)
      (initState [singleTask]) singleTask).deferred singleTask.id = 0 ∧
    (iterTask { maxRetries := 2 } (retryOracle 0)
      (initState [singleTask]) singleTask).abort = true := by
  refine ⟨((runSeq_retryable { maxRetries := 1 } retryOracle 3
      (initState [singleTask]) singleTask "rate limit"
      (by decide) rfl rfl rfl (by decide)).1 (by decide)).2.2.2.2.1, ?_⟩
  exact ((runSeq_retryable { maxRetries := 2 } retryOracle 3
      (initState [singleTask]) singleTask "rate limit"
      (by decide) rfl rfl rfl (by decide)).2 (by decide)).1

theorem rtb_not_branchEvs (opts : ExecOptions) (o : StepOracle) :
    Ev.returnedToBase ∉ branchEvs opts o := by
  unfold branchEvs
  split
  · cases o.branch <;> simp
  · simp

theorem rtb_not_prEvs (opts : ExecOptions) (o : StepOracle) :
    Ev.returnedToBase ∉ prEvs opts o := by
  rcases hb : branchVar opts o with _ | b
  · simp [prEvs, hb]
  · by_cases hc : (opts.createPr && opts.baseBranch != "") = true <;>
      simp [prEvs, hb, hc]

/-- The iteration body itself never emits the return-to-base event. -/
theorem rtb_not_iterTask (opts : ExecOptions) (o : StepOracle) (s : LoopState)
    (t : Task) : Ev.returnedToBase ∉ (iterTask opts o s t).block := by
  have hbr := rtb_not_branchEvs opts o
  have hpr := rtb_not_prEvs opts o
  cases hd : opts.dryRun with
  | true =>
    have hb : (iterTask opts o s t).block = Ev.fetched t :: branchEvs opts o := by
      unfold iterTask; rw [hd]; simp
    rw [hb]
    simp [hbr]
  | false =>
    cases hi : o.invoke with
    | ok r =>
      cases hs : r.success with
      | true =>
        rw [iterTask_success opts o s t r hd hi hs]
        simp [hbr, hpr]
      | false =>
        have hmsg : invokeError o.invoke = some (errMsgOf r) := by
          simp only [hi, invokeError, hs, Bool.false_eq_true, if_false]
        rw [iterTask_failure opts o s t (errMsgOf r) hd hmsg, failDispo_block]
        simp [hbr, failEvs, hi]
    | thrown m =>
      have hmsg : invokeError o.invoke = some m := by
        simp only [hi, invokeError]
      rw [iterTask_failure opts o s t m hd hmsg, failDispo_block]
      simp [hbr, failEvs, hi]

/-- C4 counterexample: with branch-per-task enabled, a task whose
branch was created but whose engine invocation ends in a fatal error
never gets its `returnToBaseBranch` call — the fatal branch returns
before the cleanup block. -/
theorem runSeq_fatal_skips_base_return :
    Ev.branchCreated "task-b" ∈
      (stateOf (runSeq branchOpts fatalBranchOracle 5
        (initState [singleTask]))).trace ∧
    Ev.returnedToBase ∉
      (stateOf (runSeq branchOpts fatalBranchOracle 5
        (initState [singleTask]))).trace := by
  constructor
  · decide
  · decide

/-- C4 amended: with `branchPerTask` and a non-empty `baseBranch`,
`returnToBaseBranch` runs after the task's execution on every non-fatal
path (success, retryable failure, unknown failure, dry run, even when
branch creation failed) — but on a fatal error the run returns
immediately and the return-to-base event never occurs for that task. -/
theorem runSeq_base_return (opts : ExecOptions) (oracle : Nat → StepOracle)
    (fuel : Nat) (s : LoopState) (t : Task)
    (hb : opts.branchPerTask = true) (hbb : (opts.baseBranch != "") = true)
    (hcap : capReached opts s = false)
    (hfetch : getNextTask s.source = some t) :
    ((iterTask opts (oracle s.iteration) s t).fatalExit = false →
      (stepState s (withBaseReturn opts (iterTask opts (oracle s.iteration) s t))).trace =
        s.trace ++ ((iterTask opts (oracle s.iteration) s t).block ++
          [Ev.returnedToBase]) ∧
      runSeq opts oracle (fuel + 1) s =
        (if (iterTask opts (oracle s.iteration) s t).abort then
          RunOutcome.finished
            (stepState s (withBaseReturn opts (iterTask opts (oracle s.iteration) s t)))
        else
          runSeq opts oracle fuel
            (stepState s (withBaseReturn opts (iterTask opts (oracle s.iteration) s t))))) ∧
    ((iterTask opts (oracle s.iteration) s t).fatalExit = true →
      runSeq opts oracle (fuel + 1) s =
        .finished (stepState s (iterTask opts (oracle s.iteration) s t)) ∧
      Ev.returnedToBase ∉
        (stepState s (iterTask opts (oracle s.iteration) s t)).trace.drop
          s.trace.length) := by
  have hwbr : withBaseReturn opts (iterTask opts (oracle s.iteration) s t) =
      { iterTask opts (oracle s.iteration) s t with
        block := (iterTask opts (oracle s.iteration) s t).block ++
          [Ev.returnedToBase] } := by
    unfold withBaseReturn
    rw [if_pos (by rw [hb, hbb]; rfl)]
  constructor
  · intro hfat
    constructor
    · rw [hwbr]
      rfl
    · rw [runSeq_step opts oracle fuel s t hcap hfetch]
      rw [if_neg (by rw [hfat]; simp)]
      rw [withBaseReturn_abort]
  · intro hfat
    constructor
    · rw [runSeq_step opts oracle fuel s t hcap hfetch]
      rw [if_pos (by rw [hfat])]
    · have hdrop : (stepState s (iterTask opts (oracle s.iteration) s t)).trace.drop
          s.trace.length = (iterTask opts (oracle s.iteration) s t).block := by
        simp [stepState]
      rw [hdrop]
      exact rtb_not_iterTask opts (oracle s.iteration) s t

/-- Witness for `runSeq_base_return`: the cleanup event after a
concrete successful task with branch-per-task enabled. -/
theorem runSeq_base_return_witness :
    (stepState (initState [singleTask])
      (withBaseReturn branchOpts (iterTask branchOpts (okOracle 0)
        (initState [singleTask]) singleTask))).trace =
      (initState [singleTask]).trace ++
        ((iterTask branchOpts (okOracle 0)
          (initState [singleTask]) singleTask).block ++ [Ev.returnedToBase]) :=
  ((runSeq_base_return branchOpts okOracle 3 (initState [singleTask]) singleTask
    rfl rfl (by decide) rfl).1 (by decide)).1

/-- C9: a run over a single task whose engine invocation succeeds with
100 input and 50 output tokens returns
`{tasksCompleted := 1, tasksFailed := 0, totalInputTokens := 100,
totalOutputTokens := 50}`. -/
theorem runSeq_single_success_result :
    isFinished (runSeq {} okOracle 3 (initState [singleTask])) = true ∧
    (stateOf (runSeq {} okOracle 3 (initState [singleTask]))).result =
      { tasksCompleted := 1, tasksFailed := 0,
        totalInputTokens := 100, totalOutputTokens := 50 } := by
  constructor
  · rfl
  · rfl

end Ralphy
